import Mathlib

/-!
Verification development for the simple_redis_cache repository.

The code under verification is the decorator simple_redis_cache in
src/base.py: it wraps a function, derives a Redis key from the function
name and a sha256 digest of the pickled pair (args, sorted kwargs),
consults the store, and on a miss computes, pickles and stores the
result, with store errors gated by the raise_redis flag.

Python values passed as arguments and returned as results are modelled
by the inductive type Value below.  The pickle module is external
library code; it is modelled by an executable, deterministic and
injective byte encoding pickleDumps together with a decoder pickleLoads
satisfying the round-trip law pickle relies on.  hashlib.sha256 is
modelled by a full executable implementation of SHA-256 over byte
lists.  The Redis client is modelled by an association-list store plus
a behaviour record saying which of ping/get/set raise.
-/

namespace SimpleRedisCache

mutual

/-- Model of the Python values that can flow through the decorator:
None, booleans, integers, strings, tuples, and object instances.  An
object carries an identity and a flag saying whether pickle can
serialize it (pickle.dumps raises on lambdas, sockets, and the like,
which is how a SerializationError arises). -/
inductive Value where
  | vnone : Value
  | vbool : Bool → Value
  | vint : Int → Value
  | vstr : String → Value
  | vtuple : ValueList → Value
  | vobj : Nat → Bool → Value
deriving DecidableEq

/-- Lists of values, mutually inductive with Value so that structural
recursion and induction over tuples is available. -/
inductive ValueList where
  | nil : ValueList
  | cons : Value → ValueList → ValueList
deriving DecidableEq

end

/-- Length of a ValueList. -/
def lengthVL : ValueList → Nat
  | .nil => 0
  | .cons _ vs => lengthVL vs + 1

mutual

/-- Model of pickle.dumps on a single value: a deterministic,
injective, tag-based byte encoding.  Returns none when the value (or a
component of it) is an object pickle cannot serialize, modelling the
PicklingError / SerializationError case. -/
def pickleDumps : Value → Option (List Nat)
  | .vnone => some [0]
  | .vbool b => some [1, cond b 1 0]
  | .vint n => some [2, if n < 0 then 1 else 0, n.natAbs]
  | .vstr s => some (3 :: s.length :: s.data.map Char.toNat)
  | .vtuple vs =>
      match pickleDumpsList vs with
      | some bs => some (4 :: lengthVL vs :: bs)
      | none => none
  | .vobj i p => cond p (some [5, i]) none

/-- Serialization of the elements of a tuple, concatenated. -/
def pickleDumpsList : ValueList → Option (List Nat)
  | .nil => some []
  | .cons v vs =>
      match pickleDumps v, pickleDumpsList vs with
      | some b, some bs => some (b ++ bs)
      | _, _ => none

end

mutual

/-- Fuel bound needed by the decoder to decode a value. -/
def fuelV : Value → Nat
  | .vtuple vs => fuelL vs + 1
  | _ => 1

/-- Fuel bound needed by the decoder to decode a list of values. -/
def fuelL : ValueList → Nat
  | .nil => 1
  | .cons v vs => max (fuelV v) (fuelL vs) + 1

end

mutual

/-- Fueled decoder for the pickleDumps encoding: reads one value off
the front of the byte list and returns it with the remaining bytes. -/
def decV : Nat → List Nat → Option (Value × List Nat)
  | 0, _ => none
  | fuel + 1, bs =>
      match bs with
      | 0 :: rest => some (.vnone, rest)
      | 1 :: b :: rest => some (.vbool (b == 1), rest)
      | 2 :: s :: m :: rest =>
          some (.vint (if s == 1 then -(m : Int) else (m : Int)), rest)
      | 3 :: len :: rest =>
          if len ≤ rest.length then
            some (.vstr (String.mk ((rest.take len).map Char.ofNat)), rest.drop len)
          else none
      | 4 :: len :: rest =>
          match decL fuel len rest with
          | some (vs, r) => some (.vtuple vs, r)
          | none => none
      | 5 :: i :: rest => some (.vobj i true, rest)
      | _ => none

/-- Fueled decoder for a known number of consecutive encoded values. -/
def decL : Nat → Nat → List Nat → Option (ValueList × List Nat)
  | 0, _, _ => none
  | _ + 1, 0, bs => some (.nil, bs)
  | fuel + 1, n + 1, bs =>
      match decV fuel bs with
      | some (v, r) =>
          match decL fuel n r with
          | some (vs, r2) => some (.cons v vs, r2)
          | none => none
      | none => none

end

/-- Model of pickle.loads: decode a full byte string back to a value;
none models an UnpicklingError on bytes that are not a valid dump. -/
def pickleLoads (bs : List Nat) : Option Value :=
  match decV (bs.length + 1) bs with
  | some (v, []) => some v
  | _ => none

theorem pickleDumps_ne_nil (v : Value) (bs : List Nat)
    (h : pickleDumps v = some bs) : bs ≠ [] := by
  cases v with
  | vnone => simp [pickleDumps] at h; simp [← h]
  | vbool b => simp [pickleDumps] at h; simp [← h]
  | vint n => simp [pickleDumps] at h; simp [← h]
  | vstr s => simp [pickleDumps] at h; simp [← h]
  | vtuple vs =>
      unfold pickleDumps at h
      cases hL : pickleDumpsList vs with
      | none => rw [hL] at h; simp at h
      | some bsL => rw [hL] at h; simp at h; simp [← h]
  | vobj i p =>
      cases p with
      | false => simp [pickleDumps] at h
      | true => simp [pickleDumps] at h; simp [← h]

mutual

theorem fuelV_le (v : Value) (bs : List Nat)
    (h : pickleDumps v = some bs) : fuelV v ≤ bs.length + 1 := by
  cases v with
  | vnone => simp [fuelV]
  | vbool b => simp [fuelV]
  | vint n => simp [fuelV]
  | vstr s => simp [fuelV]
  | vtuple vs =>
      unfold pickleDumps at h
      cases hL : pickleDumpsList vs with
      | none => rw [hL] at h; simp at h
      | some bsL =>
          rw [hL] at h; simp at h
          have hle := fuelL_le vs bsL hL
          subst h
          simp [fuelV]
          omega
  | vobj i p => simp [fuelV]

theorem fuelL_le (vs : ValueList) (bs : List Nat)
    (h : pickleDumpsList vs = some bs) : fuelL vs ≤ bs.length + 2 := by
  cases vs with
  | nil => simp [pickleDumpsList] at h; subst h; simp [fuelL]
  | cons v vs' =>
      unfold pickleDumpsList at h
      cases hv : pickleDumps v with
      | none => rw [hv] at h; simp at h
      | some bv =>
          cases hl : pickleDumpsList vs' with
          | none => rw [hv, hl] at h; simp at h
          | some bl =>
              rw [hv, hl] at h; simp at h
              have h1 := fuelV_le v bv hv
              have h2 := fuelL_le vs' bl hl
              have h3 : bv ≠ [] := pickleDumps_ne_nil v bv hv
              have h4 : 1 ≤ bv.length := by
                cases bv with
                | nil => exact absurd rfl h3
                | cons a l => simp
              subst h
              simp [fuelL]
              omega

end

theorem fuelV_pos (v : Value) : 1 ≤ fuelV v := by
  cases v <;> simp [fuelV]

theorem fuelL_pos (vs : ValueList) : 1 ≤ fuelL vs := by
  cases vs <;> simp [fuelL]

mutual

theorem decV_dumps (v : Value) :
    ∀ (bs rest : List Nat) (fuel : Nat), pickleDumps v = some bs →
      fuelV v ≤ fuel + 1 → decV (fuel + 1) (bs ++ rest) = some (v, rest) := by
  cases v with
  | vnone =>
      intro bs rest fuel h _
      simp [pickleDumps] at h
      subst h
      simp [decV]
  | vbool b =>
      intro bs rest fuel h _
      simp [pickleDumps] at h
      subst h
      cases b <;> simp [decV]
  | vint n =>
      intro bs rest fuel h _
      simp [pickleDumps] at h
      subst h
      by_cases hn : n < 0
      · have h1 : ((n.natAbs : Int)) = -n := Int.ofNat_natAbs_of_nonpos (le_of_lt hn)
        simp [decV, hn, h1]
      · have h1 : ((n.natAbs : Int)) = n := Int.natAbs_of_nonneg (le_of_not_lt hn)
        simp [decV, hn, h1]
  | vstr s =>
      intro bs rest fuel h _
      simp [pickleDumps] at h
      subst h
      have hlen : (s.data.map Char.toNat).length = s.length := by
        rw [List.length_map]
        rfl
      simp only [decV, List.cons_append]
      rw [show s.data.map Char.toNat ++ rest
            = (s.data.map Char.toNat) ++ rest from rfl]
      have hle : s.length ≤ ((s.data.map Char.toNat) ++ rest).length := by
        simp [hlen]
      rw [if_pos hle]
      have htake : ((s.data.map Char.toNat) ++ rest).take s.length
          = s.data.map Char.toNat := by
        rw [← hlen]
        exact List.take_left _ _
      have hdrop : ((s.data.map Char.toNat) ++ rest).drop s.length = rest := by
        rw [← hlen]
        exact List.drop_left _ _
      rw [htake, hdrop]
      have hmap : (s.data.map Char.toNat).map Char.ofNat = s.data := by
        rw [List.map_map]
        have h1 : ∀ c ∈ s.data, (Char.ofNat ∘ Char.toNat) c = c :=
          fun c _ => Char.ofNat_toNat c
        rw [List.map_congr_left h1, List.map_id']
      rw [hmap]
  | vtuple vs =>
      intro bs rest fuel h hfuel
      unfold pickleDumps at h
      cases hL : pickleDumpsList vs with
      | none => rw [hL] at h; simp at h
      | some bsL =>
          rw [hL] at h; simp at h
          subst h
          have hf : fuelL vs ≤ fuel := by
            simp [fuelV] at hfuel
            omega
          have hfuel1 : 1 ≤ fuel := le_trans (by simp [fuelL_pos]) hf
          obtain ⟨fuel', rfl⟩ : ∃ k, fuel = k + 1 := ⟨fuel - 1, by omega⟩
          simp only [decV, List.cons_append]
          rw [decL_dumps vs bsL rest fuel' hL hf]
  | vobj i p =>
      intro bs rest fuel h _
      cases p with
      | false => simp [pickleDumps] at h
      | true =>
          simp [pickleDumps] at h
          subst h
          simp [decV]

theorem decL_dumps (vs : ValueList) :
    ∀ (bs rest : List Nat) (fuel : Nat), pickleDumpsList vs = some bs →
      fuelL vs ≤ fuel + 1 → decL (fuel + 1) (lengthVL vs) (bs ++ rest) = some (vs, rest) := by
  cases vs with
  | nil =>
      intro bs rest fuel h _
      simp [pickleDumpsList] at h
      subst h
      simp [decL, lengthVL]
  | cons v vs' =>
      intro bs rest fuel h hfuel
      unfold pickleDumpsList at h
      cases hv : pickleDumps v with
      | none => rw [hv] at h; simp at h
      | some bv =>
          cases hl : pickleDumpsList vs' with
          | none => rw [hv, hl] at h; simp at h
          | some bl =>
              rw [hv, hl] at h; simp at h
              subst h
              have hfv : fuelV v ≤ fuel := by
                simp [fuelL] at hfuel
                omega
              have hfl : fuelL vs' ≤ fuel := by
                simp [fuelL] at hfuel
                omega
              obtain ⟨fuel', rfl⟩ : ∃ k, fuel = k + 1 := by
                have := fuelV_pos v
                exact ⟨fuel - 1, by omega⟩
              simp only [decL, lengthVL, List.append_assoc]
              rw [decV_dumps v bv (bl ++ rest) fuel' hv hfv]
              simp only [decL_dumps vs' bl rest fuel' hl hfl]

end

theorem pickleLoads_pickleDumps (v : Value) (bs : List Nat)
    (h : pickleDumps v = some bs) : pickleLoads bs = some v := by
  have hd := decV_dumps v bs [] bs.length h (fuelV_le v bs h)
  rw [List.append_nil] at hd
  unfold pickleLoads
  rw [hd]

theorem pickleDumps_inj (v w : Value) (bs : List Nat)
    (hv : pickleDumps v = some bs) (hw : pickleDumps w = some bs) : v = w := by
  have h1 := pickleLoads_pickleDumps v bs hv
  have h2 := pickleLoads_pickleDumps w bs hw
  rw [h1] at h2
  exact Option.some.inj h2

/-! SHA-256, modelling hashlib.sha256(...).hexdigest() from src/base.py
line 30.  Words are Nat taken modulo 2^32. -/

/-- The 32-bit modulus. -/
def M32 : Nat := 4294967296

/-- Rotate a 32-bit word right by n bit positions. -/
def rotr (n x : Nat) : Nat := ((x >>> n) ||| (x <<< (32 - n))) % M32

/-- SHA-256 small sigma 0. -/
def ssig0 (x : Nat) : Nat := (rotr 7 x) ^^^ (rotr 18 x) ^^^ (x >>> 3)

/-- SHA-256 small sigma 1. -/
def ssig1 (x : Nat) : Nat := (rotr 17 x) ^^^ (rotr 19 x) ^^^ (x >>> 10)

/-- SHA-256 big sigma 0. -/
def bsig0 (x : Nat) : Nat := (rotr 2 x) ^^^ (rotr 13 x) ^^^ (rotr 22 x)

/-- SHA-256 big sigma 1. -/
def bsig1 (x : Nat) : Nat := (rotr 6 x) ^^^ (rotr 11 x) ^^^ (rotr 25 x)

/-- SHA-256 choice function; complement is xor with the 32-bit mask. -/
def chf (x y z : Nat) : Nat := (x &&& y) ^^^ ((x ^^^ 4294967295) &&& z)

/-- SHA-256 majority function. -/
def majf (x y z : Nat) : Nat := (x &&& y) ^^^ (x &&& z) ^^^ (y &&& z)

/-- The SHA-256 round constants. -/
def sha256K : List Nat :=
  [1116352408, 1899447441, 3049323471, 3921009573,
   961987163, 1508970993, 2453635748, 2870763221,
   3624381080, 310598401, 607225278, 1426881987,
   1925078388, 2162078206, 2614888103, 3248222580,
   3835390401, 4022224774, 264347078, 604807628,
   770255983, 1249150122, 1555081692, 1996064986,
   2554220882, 2821834349, 2952996808, 3210313671,
   3336571891, 3584528711, 113926993, 338241895,
   666307205, 773529912, 1294757372, 1396182291,
   1695183700, 1986661051, 2177026350, 2456956037,
   2730485921, 2820302411, 3259730800, 3345764771,
   3516065817, 3600352804, 4094571909, 275423344,
   430227734, 506948616, 659060556, 883997877,
   958139571, 1322822218, 1537002063, 1747873779,
   1955562222, 2024104815, 2227730452, 2361852424,
   2428436474, 2756734187, 3204031479, 3329325298]

/-- The eight 32-bit words of SHA-256 state. -/
structure Hash8 where
  a : Nat
  b : Nat
  c : Nat
  d : Nat
  e : Nat
  f : Nat
  g : Nat
  h : Nat
deriving DecidableEq

/-- The SHA-256 initial state. -/
def sha256H0 : Hash8 :=
  ⟨1779033703, 3144134277, 1013904242, 2773480762,
   1359893119, 2600822924, 528734635, 1541459225⟩

/-- Pad a byte message to a multiple of 64 bytes, appending the 0x80
marker, zeros, and the 64-bit big-endian bit length. -/
def sha256pad (msg : List Nat) : List Nat :=
  let bitLen := 8 * msg.length
  let zeros := (119 - msg.length % 64) % 64
  msg ++ [128] ++ List.replicate zeros 0 ++
    ([56, 48, 40, 32, 24, 16, 8, 0].map (fun s => (bitLen >>> s) % 256))

/-- Fueled worker for chunks64; every step consumes at least one byte,
so fuel equal to the list length suffices. -/
def chunks64Go : Nat → List Nat → List (List Nat)
  | 0, _ => []
  | _ + 1, [] => []
  | fuel + 1, x :: l => (x :: l).take 64 :: chunks64Go fuel ((x :: l).drop 64)

/-- Split a list into chunks of 64 bytes. -/
def chunks64 (l : List Nat) : List (List Nat) := chunks64Go l.length l

/-- Pack bytes into big-endian 32-bit words. -/
def toWords : List Nat → List Nat
  | b0 :: b1 :: b2 :: b3 :: rest =>
      (b0 * 16777216 + b1 * 65536 + b2 * 256 + b3) :: toWords rest
  | _ => []

/-- One message-schedule extension step appending word number 16 + k. -/
def extendStep (w : List Nat) : List Nat :=
  let n := w.length
  w ++ [(ssig1 (w.getD (n - 2) 0) + w.getD (n - 7) 0 +
         ssig0 (w.getD (n - 15) 0) + w.getD (n - 16) 0) % M32]

/-- The 64-word message schedule of a block. -/
def schedule (block : List Nat) : List Nat :=
  (List.range 48).foldl (fun w _ => extendStep w) (toWords block)

/-- One SHA-256 compression round. -/
def compressRound (s : Hash8) (kw : Nat × Nat) : Hash8 :=
  let t1 := (s.h + bsig1 s.e + chf s.e s.f s.g + kw.1 + kw.2) % M32
  let t2 := (bsig0 s.a + majf s.a s.b s.c) % M32
  ⟨(t1 + t2) % M32, s.a, s.b, s.c, (s.d + t1) % M32, s.e, s.f, s.g⟩

/-- Process one 64-byte block. -/
def processBlock (s : Hash8) (block : List Nat) : Hash8 :=
  let t := (sha256K.zip (schedule block)).foldl compressRound s
  ⟨(s.a + t.a) % M32, (s.b + t.b) % M32, (s.c + t.c) % M32, (s.d + t.d) % M32,
   (s.e + t.e) % M32, (s.f + t.f) % M32, (s.g + t.g) % M32, (s.h + t.h) % M32⟩

/-- SHA-256 of a byte message, as eight 32-bit state words. -/
def sha256 (msg : List Nat) : Hash8 :=
  (chunks64 (sha256pad msg)).foldl processBlock sha256H0

/-- The sixteen lowercase hexadecimal digits. -/
def hexDigits : List Char := "0123456789abcdef".data

/-- One lowercase hexadecimal digit. -/
def hexChar (n : Nat) : Char := hexDigits.getD n '0'

/-- Lowercase hexadecimal rendering of one 32-bit word. -/
def wordHex (w : Nat) : List Char :=
  (List.range 8).map (fun i => hexChar ((w >>> ((7 - i) * 4)) % 16))

/-- Model of hashlib.sha256(bs).hexdigest(): the 64-character lowercase
hexadecimal digest string. -/
def sha256hex (msg : List Nat) : String :=
  let s := sha256 msg
  String.mk (wordHex s.a ++ wordHex s.b ++ wordHex s.c ++ wordHex s.d ++
             wordHex s.e ++ wordHex s.f ++ wordHex s.g ++ wordHex s.h)

/-- Sanity anchor: the implementation meets the standard SHA-256 test
vector for the message "abc". -/
theorem sha256hex_abc :
    sha256hex [97, 98, 99] =
      "ba7816bf8f01cfea414140de5dae2223b00361a396177a9cb410ff61f20015ad" := by
  decide

/-! The Redis client model and the decorator wrapper from src/base.py. -/

/-- Which of the three store operations used by the wrapper raise an
exception when called (an unreachable Redis raises on all three). -/
structure StoreBehavior where
  pingFails : Bool
  getFails : Bool
  setFails : Bool
deriving DecidableEq

/-- A live, error-free store behaviour. -/
def liveStore : StoreBehavior := ⟨false, false, false⟩

/-- The store contents: an association list from Redis keys to the
stored byte strings.  The ex=ttl expiration passed to set is owned by
Redis and not modelled (no claim concerns expiry). -/
abbrev StoreData := List (String × List Nat)

/-- Model of redis_client.get on the store contents. -/
def storeGet (d : StoreData) (k : String) : Option (List Nat) :=
  (List.find? (fun p => p.1 == k) d).map (fun p => p.2)

/-- Model of redis_client.set on the store contents. -/
def storeSet (d : StoreData) (k : String) (v : List Nat) : StoreData :=
  (k, v) :: d

/-- The exceptions a wrapped call can raise: an error from one of the
three store operations (re-raised by the wrapper), a pickling error
from pickle.dumps, an unpickling error from pickle.loads, or whatever
the wrapped function itself raises. -/
inductive PyError (ε : Type) where
  | storePing : PyError ε
  | storeGetE : PyError ε
  | storeSetE : PyError ε
  | pickleErr : PyError ε
  | unpickleErr : PyError ε
  | funcErr : ε → PyError ε
deriving DecidableEq

deriving instance DecidableEq for Except

/-- Python truthiness of an optional byte string, as tested by the
line if cached_result: in src/base.py — None and b"" are falsy, any
non-empty byte string is truthy. -/
def truthy : Option (List Nat) → Bool
  | some bs => !bs.isEmpty
  | none => false

/-- Lexicographic order on character lists by code point, which is
exactly how Python compares the str keys of kwargs. -/
def charListLe : List Char → List Char → Bool
  | [], _ => true
  | _ :: _, [] => false
  | a :: as, b :: bs =>
      if a.toNat < b.toNat then true
      else if b.toNat < a.toNat then false
      else charListLe as bs

/-- Order on keyword-argument pairs: by key, Python-string order. -/
def keyLe (a b : String × Value) : Prop := charListLe a.1.data b.1.data = true

instance : DecidableRel keyLe := fun a b => by
  unfold keyLe
  infer_instance

/-- Sorting of keyword arguments by key, modelling
sorted(kwargs.items()) at src/base.py line 28.  Python dict items have
pairwise-distinct keys, so sorting the pairs by key alone determines
the result. -/
def sortKwargs (kw : List (String × Value)) : List (String × Value) :=
  List.insertionSort keyLe kw

/-- A keyword-argument pair as the Python tuple (key, value). -/
def kwPairValue (p : String × Value) : Value :=
  .vtuple (.cons (.vstr p.1) (.cons p.2 .nil))

/-- Keyword-argument pairs as the Python tuple of (key, value) tuples
produced by tuple(sorted(kwargs.items())). -/
def kwargsVL : List (String × Value) → ValueList
  | [] => .nil
  | p :: rest => .cons (kwPairValue p) (kwargsVL rest)

/-- Serialization of the pair (args, sorted_kwargs), modelling
key_data = pickle.dumps((args, sorted_kwargs)) at src/base.py line 29;
none models a raised SerializationError. -/
def keyData (args : ValueList) (skw : List (String × Value)) : Option (List Nat) :=
  pickleDumps (.vtuple (.cons (.vtuple args) (.cons (.vtuple (kwargsVL skw)) .nil)))

/-- The Redis key for a function name and serialized key data,
modelling lines 30 and 33 of src/base.py. -/
def redisKey (funcName : String) (kd : List Nat) : String :=
  funcName ++ ":" ++ sha256hex kd

/-- The Fingerprint Encoder of the spec: derive the cache key from the
function name, positional arguments and keyword arguments, as lines
28-33 of src/base.py do; none models a raised SerializationError. -/
def encode (funcName : String) (args : ValueList)
    (kwargs : List (String × Value)) : Option String :=
  (keyData args (sortKwargs kwargs)).map (fun kd => redisKey funcName kd)

/-- The miss branch of the wrapper, src/base.py lines 47-53: invoke
the function, then try to pickle and store the result, store and
pickling errors in that try block being raised only when raise_redis
is set.  The third component counts invocations of the function. -/
def computeAndStore {ε : Type} (B : StoreBehavior) (raise_redis : Bool)
    (redis_key : String) (func : ValueList → List (String × Value) → Except ε Value)
    (args : ValueList) (kwargs : List (String × Value)) (d : StoreData) :
    Except (PyError ε) Value × StoreData × Nat :=
  match func args kwargs with
  | .error e => (.error (.funcErr e), d, 1)
  | .ok result =>
      match pickleDumps result with
      | none =>
          if raise_redis then (.error .pickleErr, d, 1) else (.ok result, d, 1)
      | some rb =>
          if B.setFails then
            if raise_redis then (.error .storeSetE, d, 1) else (.ok result, d, 1)
          else (.ok result, storeSet d redis_key rb, 1)

/-- The wrapper closure produced by the simple_redis_cache decorator,
src/base.py lines 21-53, for one call: ping the store (raising only
when raise_redis), serialize the arguments with sorted kwargs, derive
the Redis key, look the key up (a get error being raised when
raise_redis and otherwise treated as an absent entry), return the
unpickled entry on a truthy cached value, and otherwise compute and
populate.  Returns the call outcome, the resulting store contents, and
the number of times the wrapped function was invoked. -/
def wrapper {ε : Type} (B : StoreBehavior) (raise_redis : Bool)
    (funcName : String) (func : ValueList → List (String × Value) → Except ε Value)
    (args : ValueList) (kwargs : List (String × Value)) (d : StoreData) :
    Except (PyError ε) Value × StoreData × Nat :=
  if B.pingFails && raise_redis then (.error .storePing, d, 0)
  else
    match keyData args (sortKwargs kwargs) with
    | none => (.error .pickleErr, d, 0)
    | some kd =>
        let redis_key := redisKey funcName kd
        if B.getFails && raise_redis then (.error .storeGetE, d, 0)
        else
          let cached : Option (List Nat) :=
            if B.getFails then none else storeGet d redis_key
          if truthy cached then
            match pickleLoads (cached.getD []) with
            | some v => (.ok v, d, 0)
            | none => (.error .unpickleErr, d, 0)
          else computeAndStore B raise_redis redis_key func args kwargs d

/-! Properties of the keyword-argument sort. -/

theorem charListLe_total (as bs : List Char) :
    charListLe as bs = true ∨ charListLe bs as = true := by
  induction as generalizing bs with
  | nil => left; simp [charListLe]
  | cons a as ih =>
      cases bs with
      | nil => right; simp [charListLe]
      | cons b bs =>
          by_cases h1 : a.toNat < b.toNat
          · left; simp [charListLe, h1]
          · by_cases h2 : b.toNat < a.toNat
            · right; simp [charListLe, h1, h2]
            · rcases ih bs with h | h
              · left; simp [charListLe, h1, h2, h]
              · right; simp [charListLe, h1, h2, h]

theorem charListLe_trans (as bs cs : List Char)
    (h1 : charListLe as bs = true) (h2 : charListLe bs cs = true) :
    charListLe as cs = true := by
  induction as generalizing bs cs with
  | nil => simp [charListLe]
  | cons a as ih =>
      cases bs with
      | nil => simp [charListLe] at h1
      | cons b bs =>
          cases cs with
          | nil => simp [charListLe] at h2
          | cons c cs =>
              simp only [charListLe] at h1 h2 ⊢
              by_cases hab : a.toNat < b.toNat
              · by_cases hbc : b.toNat < c.toNat
                · rw [if_pos (by omega)]
                · by_cases hcb : c.toNat < b.toNat
                  · simp [hbc, hcb] at h2
                  · rw [if_pos (by omega)]
              · by_cases hba : b.toNat < a.toNat
                · simp [hab, hba] at h1
                · simp [hab, hba] at h1
                  by_cases hbc : b.toNat < c.toNat
                  · rw [if_pos (by omega)]
                  · by_cases hcb : c.toNat < b.toNat
                    · simp [hbc, hcb] at h2
                    · simp [hbc, hcb] at h2
                      rw [if_neg (by omega), if_neg (by omega)]
                      exact ih bs cs h1 h2

theorem charListLe_antisymm (as bs : List Char)
    (h1 : charListLe as bs = true) (h2 : charListLe bs as = true) : as = bs := by
  induction as generalizing bs with
  | nil =>
      cases bs with
      | nil => rfl
      | cons b bs => simp [charListLe] at h2
  | cons a as ih =>
      cases bs with
      | nil => simp [charListLe] at h1
      | cons b bs =>
          simp only [charListLe] at h1 h2
          by_cases hab : a.toNat < b.toNat
          · simp [hab, (by omega : ¬ b.toNat < a.toNat)] at h2
            omega
          · by_cases hba : b.toNat < a.toNat
            · simp [hab, hba] at h1
            · have hn : a.toNat = b.toNat := by omega
              have ha : a = b := by
                have hcongr := congrArg Char.ofNat hn
                rwa [Char.ofNat_toNat, Char.ofNat_toNat] at hcongr
              simp [hab, hba] at h1 h2
              rw [ha, ih bs h1 h2]

instance : IsTotal (String × Value) keyLe :=
  ⟨fun a b => charListLe_total a.1.data b.1.data⟩

instance : IsTrans (String × Value) keyLe :=
  ⟨fun a b c h1 h2 => charListLe_trans a.1.data b.1.data c.1.data h1 h2⟩

/-- The conjunction of the key order with key distinctness, which is
antisymmetric and therefore pins sorted lists down uniquely. -/
def keyLt (a b : String × Value) : Prop := keyLe a b ∧ a.1 ≠ b.1

instance : IsAntisymm (String × Value) keyLt :=
  ⟨fun a b h1 h2 => by
    have hd := charListLe_antisymm a.1.data b.1.data h1.1 h2.1
    exact absurd (String.ext hd) h1.2⟩

/-- Sorting by key is invariant under permutation of pairs whose keys
are pairwise distinct — the normalization step behind keyword-argument
order invariance. -/
theorem sortKwargs_eq_of_perm (kw1 kw2 : List (String × Value))
    (hperm : kw1.Perm kw2) (hnd : (kw1.map Prod.fst).Nodup) :
    sortKwargs kw1 = sortKwargs kw2 := by
  have hp1 : (sortKwargs kw1).Perm kw1 := List.perm_insertionSort keyLe kw1
  have hp2 : (sortKwargs kw2).Perm kw2 := List.perm_insertionSort keyLe kw2
  have hp : (sortKwargs kw1).Perm (sortKwargs kw2) :=
    (hp1.trans hperm).trans hp2.symm
  have hs1 : List.Sorted keyLe (sortKwargs kw1) :=
    List.sorted_insertionSort keyLe kw1
  have hs2 : List.Sorted keyLe (sortKwargs kw2) :=
    List.sorted_insertionSort keyLe kw2
  have hnd2 : (kw2.map Prod.fst).Nodup := (hperm.map Prod.fst).nodup_iff.mp hnd
  have hnds1 : ((sortKwargs kw1).map Prod.fst).Nodup :=
    (hp1.map Prod.fst).nodup_iff.mpr hnd
  have hnds2 : ((sortKwargs kw2).map Prod.fst).Nodup :=
    (hp2.map Prod.fst).nodup_iff.mpr hnd2
  have hlt1 : List.Sorted keyLt (sortKwargs kw1) := by
    have hne := List.pairwise_map.mp hnds1
    exact hs1.and hne
  have hlt2 : List.Sorted keyLt (sortKwargs kw2) := by
    have hne := List.pairwise_map.mp hnds2
    exact hs2.and hne
  exact List.eq_of_perm_of_sorted hp hlt1 hlt2

/-! Small bridge lemmas about the store and the wrapper. -/

theorem storeGet_storeSet_self (d : StoreData) (k : String) (v : List Nat) :
    storeGet (storeSet d k v) k = some v := by
  simp [storeGet, storeSet, List.find?]

theorem truthy_some_of_ne_nil (bs : List Nat) (h : bs ≠ []) :
    truthy (some bs) = true := by
  cases bs with
  | nil => exact absurd rfl h
  | cons b l => rfl

theorem computeAndStore_count {ε : Type} (B : StoreBehavior) (raise_redis : Bool)
    (redis_key : String) (func : ValueList → List (String × Value) → Except ε Value)
    (args : ValueList) (kwargs : List (String × Value)) (d : StoreData) :
    (computeAndStore B raise_redis redis_key func args kwargs d).2.2 = 1 := by
  unfold computeAndStore
  cases hf : func args kwargs with
  | error e => rfl
  | ok v =>
      cases hd : pickleDumps v with
      | none => cases raise_redis <;> simp [hd]
      | some rb =>
          by_cases hs : B.setFails = true <;> cases raise_redis <;> simp [hd, hs]

/-! The claims. -/

/-- C3: with raise_redis = true and a store whose ping fails, the
wrapped call raises the store's ping error to the caller, the store is
untouched, and the underlying computation is invoked zero times. -/
theorem failFast_ping_propagates {ε : Type} (B : StoreBehavior)
    (hB : B.pingFails = true) (funcName : String)
    (func : ValueList → List (String × Value) → Except ε Value)
    (args : ValueList) (kwargs : List (String × Value)) (d : StoreData) :
    wrapper B true funcName func args kwargs d =
      (Except.error PyError.storePing, d, 0) := by
  simp [wrapper, hB]

/-- C3 witness at a concrete call. -/
theorem failFast_ping_propagates_witness :
    wrapper ⟨true, true, true⟩ true "add"
        (fun _ _ => (Except.ok (Value.vint 3) : Except Unit Value))
        (.cons (.vint 1) (.cons (.vint 2) .nil)) [] [] =
      (Except.error PyError.storePing, [], 0) :=
  failFast_ping_propagates ⟨true, true, true⟩ rfl "add" _ _ [] []

/-- C4: with raise_redis = false against a store on which ping, get
and set all fail, the wrapped call surfaces no store error, invokes
the underlying computation exactly once, and returns exactly the value
the computation produced. -/
theorem store_failure_degrades {ε : Type} (funcName : String)
    (func : ValueList → List (String × Value) → Except ε Value)
    (args : ValueList) (kwargs : List (String × Value)) (d : StoreData)
    (kd : List Nat) (v : Value)
    (hkd : keyData args (sortKwargs kwargs) = some kd)
    (hf : func args kwargs = Except.ok v) :
    wrapper ⟨true, true, true⟩ false funcName func args kwargs d =
      (Except.ok v, d, 1) := by
  simp only [wrapper, hkd]
  simp [truthy, computeAndStore, hf]
  cases hd : pickleDumps v <;> simp [hd]

/-- C4 witness at a concrete call. -/
theorem store_failure_degrades_witness :
    wrapper ⟨true, true, true⟩ false "add"
        (fun _ _ => (Except.ok (Value.vint 3) : Except Unit Value))
        (.cons (.vint 1) (.cons (.vint 2) .nil)) [] [] =
      (Except.ok (Value.vint 3), [], 1) :=
  store_failure_degrades "add" _ _ [] [] _ _ rfl rfl

/-- C9: on a cache miss, an error raised by the underlying computation
propagates to the caller unmodified (the funcErr payload is the
computation's own error), and the store contents are unchanged — no
entry is written for the failed call. -/
theorem computation_error_propagates {ε : Type} (B : StoreBehavior) (raise_redis : Bool)
    (funcName : String) (func : ValueList → List (String × Value) → Except ε Value)
    (args : ValueList) (kwargs : List (String × Value)) (d : StoreData)
    (kd : List Nat) (e : ε)
    (hping : (B.pingFails && raise_redis) = false)
    (hget : (B.getFails && raise_redis) = false)
    (hkd : keyData args (sortKwargs kwargs) = some kd)
    (hmiss : truthy (if B.getFails then none else storeGet d (redisKey funcName kd)) = false)
    (hf : func args kwargs = Except.error e) :
    wrapper B raise_redis funcName func args kwargs d =
      (Except.error (PyError.funcErr e), d, 1) := by
  simp only [wrapper, hkd, hping, hget]
  simp [hmiss, computeAndStore, hf]

/-- C9 witness at a concrete call whose computation raises error 42. -/
theorem computation_error_propagates_witness :
    wrapper liveStore false "f"
        (fun _ _ => (Except.error 42 : Except Nat Value)) .nil [] [] =
      (Except.error (PyError.funcErr 42), [], 1) :=
  computation_error_propagates liveStore false "f" _ .nil [] [] _ 42
    rfl rfl rfl rfl rfl

/-- C2 counterexample: a computation returning an unserializable
result, called with raise_redis = false against a live store.
pickle.dumps(result) fails inside the try block around
redis_client.set (src/base.py line 49), whose handler re-raises only
when raise_redis, so the serialization failure is suppressed and the
result is returned — the call does not raise a SerializationError,
contradicting the claim that such failures propagate regardless of the
failFast setting. -/
theorem serialization_error_suppressed_counterexample :
    pickleDumps (Value.vobj 0 false) = none ∧
    (wrapper liveStore false "f"
        (fun _ _ => (Except.ok (Value.vobj 0 false) : Except Unit Value))
        .nil [] []).1 = Except.ok (Value.vobj 0 false) ∧
    (wrapper liveStore false "f"
        (fun _ _ => (Except.ok (Value.vobj 0 false) : Except Unit Value))
        .nil [] []).1 ≠ Except.error PyError.pickleErr := by
  refine ⟨rfl, by decide, by decide⟩

/-- C2 amended: a serialization failure of the call arguments (before
lookup) always raises to the caller regardless of raise_redis, with
the computation never invoked; a serialization failure of the computed
result raises only when raise_redis is true — when raise_redis is
false it is suppressed and the computed result is returned. -/
theorem serialization_error_propagation {ε : Type} (raise_redis : Bool)
    (funcName : String) (func : ValueList → List (String × Value) → Except ε Value)
    (args : ValueList) (kwargs : List (String × Value)) (d : StoreData) :
    (keyData args (sortKwargs kwargs) = none →
      wrapper liveStore raise_redis funcName func args kwargs d =
        (Except.error PyError.pickleErr, d, 0)) ∧
    (∀ kd v, keyData args (sortKwargs kwargs) = some kd →
      storeGet d (redisKey funcName kd) = none →
      func args kwargs = Except.ok v → pickleDumps v = none →
      wrapper liveStore raise_redis funcName func args kwargs d =
        (if raise_redis then (Except.error PyError.pickleErr, d, 1)
         else (Except.ok v, d, 1))) := by
  constructor
  · intro hkd
    simp [wrapper, hkd, liveStore]
  · intro kd v hkd hget hf hdump
    simp only [wrapper, hkd]
    cases raise_redis <;>
      simp [hget, truthy, computeAndStore, hf, hdump, liveStore]

/-- C2 amended witness: the argument-side failure propagates with
raise_redis = false, and the result-side failure is suppressed. -/
theorem serialization_error_propagation_witness :
    wrapper liveStore false "f"
        (fun _ _ => (Except.ok Value.vnone : Except Unit Value))
        (.cons (.vobj 0 false) .nil) [] [] =
      (Except.error PyError.pickleErr, [], 0) ∧
    wrapper liveStore false "f"
        (fun _ _ => (Except.ok (Value.vobj 0 false) : Except Unit Value))
        .nil [] [] = (Except.ok (Value.vobj 0 false), [], 1) := by
  constructor
  · exact (serialization_error_propagation false "f" _
      (.cons (.vobj 0 false) .nil) [] []).1 rfl
  · have h := (serialization_error_propagation false "f"
      (fun _ _ => (Except.ok (Value.vobj 0 false) : Except Unit Value))
      .nil [] []).2 _ (Value.vobj 0 false) rfl rfl rfl rfl
    simpa using h

/-- C5: the encoder sorts keyword arguments by key before
serialization, so two calls whose keyword arguments are the same
pairs in different insertion order (keys being distinct, as they are
in a Python dict) produce the identical cache key. -/
theorem kwarg_order_invariance (funcName : String) (args : ValueList)
    (kw1 kw2 : List (String × Value)) (hperm : kw1.Perm kw2)
    (hnd : (kw1.map Prod.fst).Nodup) :
    encode funcName args kw1 = encode funcName args kw2 := by
  unfold encode
  rw [sortKwargs_eq_of_perm kw1 kw2 hperm hnd]

/-- C5 witness at the spec's example: kwargs z=3, y=4 in either
insertion order encode to the same key. -/
theorem kwarg_order_invariance_witness :
    encode "f" (.cons (.vint 1) (.cons (.vint 2) .nil))
        [("z", .vint 3), ("y", .vint 4)] =
      encode "f" (.cons (.vint 1) (.cons (.vint 2) .nil))
        [("y", .vint 4), ("z", .vint 3)] :=
  kwarg_order_invariance "f" _ _ _ (by decide) (by decide)

/-- C8: key derivation is a deterministic function of the call: the
encoder applied twice to the same inputs yields the identical key, and
the key depends on the keyword arguments only through their sorted
canonical form. -/
theorem key_derivation_deterministic (funcName : String) (args : ValueList) :
    (∀ kwargs : List (String × Value),
      encode funcName args kwargs = encode funcName args kwargs) ∧
    (∀ kw1 kw2 : List (String × Value), sortKwargs kw1 = sortKwargs kw2 →
      encode funcName args kw1 = encode funcName args kw2) := by
  refine ⟨fun _ => rfl, fun kw1 kw2 h => ?_⟩
  unfold encode
  rw [h]

/-- C8 witness: two runs of the encoder on the same concrete call
agree, also across two insertion orders with equal canonical form. -/
theorem key_derivation_deterministic_witness :
    encode "f" .nil [("b", .vint 1), ("a", .vint 2)] =
      encode "f" .nil [("a", .vint 2), ("b", .vint 1)] :=
  (key_derivation_deterministic "f" .nil).2 _ _ (by decide)

theorem hexChar_mem (n : Nat) : hexChar n ∈ hexDigits := by
  by_cases h : n < 16
  · interval_cases n <;> decide
  · have h16 : hexDigits.length ≤ n := by
      have : hexDigits.length = 16 := by decide
      omega
    unfold hexChar
    rw [List.getD_eq_default _ _ h16]
    decide

theorem sha256hex_length (msg : List Nat) : (sha256hex msg).length = 64 := by
  have hw : ∀ w : Nat, (wordHex w).length = 8 := by
    intro w
    simp [wordHex]
  simp [sha256hex, String.length, hw]

theorem sha256hex_mem_hexDigits (msg : List Nat) :
    ∀ c ∈ (sha256hex msg).data, c ∈ hexDigits := by
  intro c hc
  have hw : ∀ (w : Nat), c ∈ wordHex w → c ∈ hexDigits := by
    intro w hcw
    simp [wordHex] at hcw
    obtain ⟨i, _, hi⟩ := hcw
    rw [← hi]
    exact hexChar_mem _
  simp only [sha256hex, List.mem_append] at hc
  rcases hc with ((((((h | h) | h) | h) | h) | h) | h) | h <;> exact hw _ h

/-- C7: a derived cache key is exactly the function name, a colon, and
the SHA-256 digest of the serialized pair (args, sorted kwargs)
rendered as a 64-character lowercase-hexadecimal string. -/
theorem cache_key_format (funcName : String) (args : ValueList)
    (kwargs : List (String × Value)) (kd : List Nat)
    (hkd : keyData args (sortKwargs kwargs) = some kd) :
    encode funcName args kwargs = some (funcName ++ ":" ++ sha256hex kd) ∧
    (sha256hex kd).length = 64 ∧
    (∀ c ∈ (sha256hex kd).data, c ∈ hexDigits) := by
  refine ⟨?_, sha256hex_length kd, sha256hex_mem_hexDigits kd⟩
  simp [encode, hkd, redisKey]

/-- C7 witness at a concrete zero-argument call. -/
theorem cache_key_format_witness :
    encode "f" .nil [] = some ("f" ++ ":" ++ sha256hex [4, 2, 4, 0, 4, 0]) ∧
    (sha256hex [4, 2, 4, 0, 4, 0]).length = 64 ∧
    (∀ c ∈ (sha256hex [4, 2, 4, 0, 4, 0]).data, c ∈ hexDigits) :=
  cache_key_format "f" .nil [] [4, 2, 4, 0, 4, 0] rfl

/-- C6: positional arguments are serialized in call order and never
reordered: distinct positional tuples (in particular unequal
permutations of each other) with the same keyword arguments always
serialize to distinct digest inputs, and at the spec's example the
derived cache keys themselves differ. -/
theorem positional_order_sensitivity :
    (∀ (args1 args2 : ValueList) (skw : List (String × Value)) (kd1 kd2 : List Nat),
      args1 ≠ args2 → keyData args1 skw = some kd1 → keyData args2 skw = some kd2 →
      kd1 ≠ kd2) ∧
    encode "f" (.cons (.vint 1) (.cons (.vint 2) .nil)) [] ≠
      encode "f" (.cons (.vint 2) (.cons (.vint 1) .nil)) [] := by
  constructor
  · intro args1 args2 skw kd1 kd2 hne h1 h2 heq
    subst heq
    have hinj := pickleDumps_inj _ _ kd1 h1 h2
    simp at hinj
    exact hne hinj
  · decide

/-- C6 witness: the digest inputs for the permuted positional tuples
(1, 2) and (2, 1) differ. -/
theorem positional_order_sensitivity_witness :
    keyData (.cons (.vint 1) (.cons (.vint 2) .nil)) [] ≠
      keyData (.cons (.vint 2) (.cons (.vint 1) .nil)) [] := by
  have h := positional_order_sensitivity.1
    (.cons (.vint 1) (.cons (.vint 2) .nil))
    (.cons (.vint 2) (.cons (.vint 1) .nil)) [] _ _ (by decide) rfl rfl
  intro hc
  exact h (Option.some.inj hc)

/-- C10: hit detection is the truthiness of the bytes returned by
get: serialized results are never the empty byte string, so any stored
entry — whatever value it encodes, falsy ones included — is a hit,
returned by unpickling the entry with the computation invoked zero
times, while an absent entry is a miss that invokes the computation. -/
theorem hit_by_truthiness {ε : Type} :
    (∀ (v : Value) (bs : List Nat), pickleDumps v = some bs → bs ≠ []) ∧
    (∀ (raise_redis : Bool) (funcName : String)
       (func : ValueList → List (String × Value) → Except ε Value)
       (args : ValueList) (kwargs : List (String × Value)) (d : StoreData)
       (kd bs : List Nat),
      keyData args (sortKwargs kwargs) = some kd →
      storeGet d (redisKey funcName kd) = some bs → bs ≠ [] →
      wrapper liveStore raise_redis funcName func args kwargs d =
        ((match pickleLoads bs with
          | some v => Except.ok v
          | none => Except.error PyError.unpickleErr), d, 0)) ∧
    (∀ (raise_redis : Bool) (funcName : String)
       (func : ValueList → List (String × Value) → Except ε Value)
       (args : ValueList) (kwargs : List (String × Value)) (d : StoreData)
       (kd : List Nat),
      keyData args (sortKwargs kwargs) = some kd →
      storeGet d (redisKey funcName kd) = none →
      (wrapper liveStore raise_redis funcName func args kwargs d).2.2 = 1) := by
  refine ⟨pickleDumps_ne_nil, ?_, ?_⟩
  · intro raise_redis funcName func args kwargs d kd bs hkd hget hne
    simp only [wrapper, hkd]
    simp [liveStore, hget, truthy_some_of_ne_nil bs hne]
    cases pickleLoads bs <;> rfl
  · intro raise_redis funcName func args kwargs d kd hkd hget
    simp only [wrapper, hkd]
    simp [liveStore, hget, truthy]
    exact computeAndStore_count liveStore raise_redis _ func args kwargs d

/-- C10 witness: a store seeded with the pickled None — a falsy cached
value — under the derived key is a hit returning None with the
computation not invoked. -/
theorem hit_by_truthiness_witness :
    wrapper liveStore false "f"
        (fun _ _ => (Except.ok (Value.vint 7) : Except Unit Value)) .nil []
        [(redisKey "f" [4, 2, 4, 0, 4, 0], [0])] =
      (Except.ok Value.vnone, [(redisKey "f" [4, 2, 4, 0, 4, 0], [0])], 0) := by
  have h := (@hit_by_truthiness Unit).2.1 false "f"
    (fun _ _ => (Except.ok (Value.vint 7) : Except Unit Value)) .nil []
    [(redisKey "f" [4, 2, 4, 0, 4, 0], [0])] [4, 2, 4, 0, 4, 0] [0]
    rfl (by simp [storeGet, List.find?]) (by decide)
  simpa using h

/-- C1: against a live, error-free store with the key absent, the
first call invokes the computation once, serializes and stores the
result under the derived key, and a second identical call returns a
value equal to the first call's result while invoking the computation
zero times. -/
theorem hit_suppresses_recomputation {ε : Type} (raise_redis : Bool)
    (funcName : String) (g : ValueList → List (String × Value) → Value)
    (args : ValueList) (kwargs : List (String × Value)) (d : StoreData)
    (kd rb : List Nat)
    (hkd : keyData args (sortKwargs kwargs) = some kd)
    (hrb : pickleDumps (g args kwargs) = some rb)
    (habsent : storeGet d (redisKey funcName kd) = none) :
    wrapper liveStore raise_redis funcName
        (fun a k => (Except.ok (g a k) : Except ε Value)) args kwargs d =
      (Except.ok (g args kwargs), storeSet d (redisKey funcName kd) rb, 1) ∧
    wrapper liveStore raise_redis funcName
        (fun a k => (Except.ok (g a k) : Except ε Value)) args kwargs
        (storeSet d (redisKey funcName kd) rb) =
      (Except.ok (g args kwargs), storeSet d (redisKey funcName kd) rb, 0) := by
  constructor
  · simp only [wrapper, hkd]
    simp [liveStore, habsent, truthy, computeAndStore, hrb]
  · simp only [wrapper, hkd]
    have hget := storeGet_storeSet_self d (redisKey funcName kd) rb
    have hne := pickleDumps_ne_nil _ _ hrb
    simp [liveStore, hget, truthy_some_of_ne_nil rb hne,
      pickleLoads_pickleDumps _ _ hrb]

/-- C1 witness: a concrete two-call run in which the first call
computes (count 1) and the second call is answered from the store
(count 0) with the same value. -/
theorem hit_suppresses_recomputation_witness :
    (wrapper liveStore false "add"
        (fun _ _ => (Except.ok (Value.vint 3) : Except Unit Value))
        (.cons (.vint 1) (.cons (.vint 2) .nil)) [] []).1 =
      Except.ok (Value.vint 3) ∧
    (wrapper liveStore false "add"
        (fun _ _ => (Except.ok (Value.vint 3) : Except Unit Value))
        (.cons (.vint 1) (.cons (.vint 2) .nil)) [] []).2.2 = 1 ∧
    (wrapper liveStore false "add"
        (fun _ _ => (Except.ok (Value.vint 3) : Except Unit Value))
        (.cons (.vint 1) (.cons (.vint 2) .nil)) []
        (wrapper liveStore false "add"
          (fun _ _ => (Except.ok (Value.vint 3) : Except Unit Value))
          (.cons (.vint 1) (.cons (.vint 2) .nil)) [] []).2.1) =
      ((wrapper liveStore false "add"
          (fun _ _ => (Except.ok (Value.vint 3) : Except Unit Value))
          (.cons (.vint 1) (.cons (.vint 2) .nil)) [] []).1,
        (wrapper liveStore false "add"
          (fun _ _ => (Except.ok (Value.vint 3) : Except Unit Value))
          (.cons (.vint 1) (.cons (.vint 2) .nil)) [] []).2.1, 0) := by
  have h := @hit_suppresses_recomputation Unit false "add"
    (fun _ _ => Value.vint 3)
    (.cons (.vint 1) (.cons (.vint 2) .nil)) [] [] _ _ rfl rfl rfl
  refine ⟨by rw [h.1], by rw [h.1], ?_⟩
  rw [h.1, h.2]

end SimpleRedisCache
